import Mathlib

/-!
Shallow embedding of the client-side EMI math core (`emi-math`) of the
loan-management repository, together with theorems settling the frozen
claims about it.

Numbers are modelled as exact rationals (`ℚ`); `Math.round` (JavaScript
round-half-up, i.e. `⌊x + 1/2⌋`) is modelled by `jsRound`.  Loop counters
and month counts are natural numbers; the source's `tenureMonths <= 0`
guard becomes `tenureMonths = 0`.
-/

set_option maxRecDepth 2000000

namespace EmiMath

/-- JavaScript `Math.round`: rounds half toward positive infinity. -/
def jsRound (x : ℚ) : ℤ := ⌊x + 1 / 2⌋

/-- The exact (unrounded) reducing-balance annuity value
`P * r * (1+r)^n / ((1+r)^n - 1)` with monthly rate `r = annualRate/1200`,
as computed inline in `calculateEMI` before `Math.round`. -/
def exactEMI (principal annualRate : ℚ) (tenureMonths : ℕ) : ℚ :=
  let r := annualRate / 1200
  let factor := (1 + r) ^ tenureMonths
  principal * r * factor / (factor - 1)

/-- `calculateEMI` from `emi-math`. -/
def calculateEMI (principal annualRate : ℚ) (tenureMonths : ℕ) : ℚ :=
  if principal ≤ 0 ∨ tenureMonths = 0 then 0
  else if annualRate = 0 then principal / tenureMonths
  else (jsRound (exactEMI principal annualRate tenureMonths) : ℚ)

/-- `calculateTotalInterest` from `emi-math`:
`Math.round(emi * tenureMonths - principal)`. -/
def calculateTotalInterest (principal annualRate : ℚ) (tenureMonths : ℕ) : ℚ :=
  (jsRound (calculateEMI principal annualRate tenureMonths * tenureMonths - principal) : ℚ)

/-- One row of an amortization schedule. -/
structure AmortizationEntry where
  month : ℕ
  emi : ℚ
  principal : ℚ
  interest : ℚ
  balance : ℚ
  cumulativeInterest : ℚ
  deriving Repr, DecidableEq

/-- One iteration of `generateAmortization`'s `for` loop on a given
balance: returns `(interest, principalPortion, newBalance)`.  Mirrors the
source: interest is rounded, the principal portion is capped at the
balance, an optional monthly prepayment is applied after the scheduled
portion (capped at the remaining balance), and the new balance is clamped
at zero. -/
def amortizeStep (emi r monthlyPrepayment balance : ℚ) : ℚ × ℚ × ℚ :=
  let interest : ℚ := (jsRound (balance * r) : ℚ)
  let portion0 := emi - interest
  let portion1 := if portion0 > balance then balance else portion0
  let balance1 := balance - portion1
  let prepay := if monthlyPrepayment > 0 ∧ balance1 > 0
    then min monthlyPrepayment balance1 else 0
  (interest, portion1 + prepay, max 0 (balance1 - prepay))

/-- The `for` loop of `generateAmortization`, with the remaining number of
permitted months as structural fuel.  The loop stops once the balance is
no longer positive or the month counter passes the tenure. -/
def amortizeLoop (emi r monthlyPrepayment : ℚ) :
    ℕ → ℕ → ℚ → ℚ → List AmortizationEntry
  | 0, _, _, _ => []
  | fuel + 1, month, balance, cumulativeInterest =>
    if balance ≤ 0 then []
    else
      let s := amortizeStep emi r monthlyPrepayment balance
      { month := month
        emi := s.2.1 + s.1
        principal := s.2.1
        interest := s.1
        balance := s.2.2
        cumulativeInterest := cumulativeInterest + s.1 } ::
        amortizeLoop emi r monthlyPrepayment fuel (month + 1) s.2.2
          (cumulativeInterest + s.1)

/-- `generateAmortization` from `emi-math`. -/
def generateAmortization (principal annualRate : ℚ) (tenureMonths : ℕ)
    (monthlyPrepayment : ℚ) : List AmortizationEntry :=
  if principal ≤ 0 ∨ tenureMonths = 0 then []
  else
    amortizeLoop (calculateEMI principal annualRate tenureMonths)
      (if annualRate > 0 then annualRate / 1200 else 0)
      monthlyPrepayment tenureMonths 1 principal 0

/-- `Math.round(x * 100) / 100`: rounding to two decimal places. -/
def round2 (x : ℚ) : ℚ := (jsRound (x * 100) : ℚ) / 100

/-- The bisection loop of `reverseEMIRate`, with the remaining iteration
count as structural fuel; fuel `0` corresponds to falling off the
100-iteration `for` loop and returning the final midpoint. -/
def reverseLoop (principal emi : ℚ) (tenureMonths : ℕ) :
    ℕ → ℚ → ℚ → ℚ
  | 0, low, high => round2 ((low + high) / 2)
  | fuel + 1, low, high =>
    let mid := (low + high) / 2
    let calcEmi := calculateEMI principal mid tenureMonths
    if |calcEmi - emi| ≤ 1 then round2 mid
    else if calcEmi < emi then reverseLoop principal emi tenureMonths fuel mid high
    else reverseLoop principal emi tenureMonths fuel low mid

/-- `reverseEMIRate` from `emi-math`: 100 bisection steps over `[0.01, 50]`. -/
def reverseEMIRate (principal emi : ℚ) (tenureMonths : ℕ) : ℚ :=
  reverseLoop principal emi tenureMonths 100 (1 / 100) 50

/-- `calculateAffordability` from `emi-math`. -/
def calculateAffordability (emi annualRate : ℚ) (tenureMonths : ℕ) : ℚ :=
  if emi ≤ 0 ∨ tenureMonths = 0 then 0
  else if annualRate = 0 then emi * tenureMonths
  else
    let r := annualRate / 1200
    let factor := (1 + r) ^ tenureMonths
    (jsRound (emi * (factor - 1) / (r * factor)) : ℚ)

/-- The exact (unrounded) EMI value across both rate branches: the plain
division for zero rate, the annuity formula otherwise. -/
def exactEMIValue (principal annualRate : ℚ) (tenureMonths : ℕ) : ℚ :=
  if annualRate = 0 then principal / tenureMonths
  else exactEMI principal annualRate tenureMonths

/-! ### Generic facts about `jsRound` -/

theorem jsRound_mono {x y : ℚ} (h : x ≤ y) : jsRound x ≤ jsRound y :=
  Int.floor_le_floor (by linarith)

theorem jsRound_err (x : ℚ) : |(jsRound x : ℚ) - x| ≤ 1 / 2 := by
  rw [abs_le]
  unfold jsRound
  constructor
  · have h := Int.sub_one_lt_floor (x + 1 / 2)
    linarith
  · have h := Int.floor_le (x + 1 / 2)
    linarith

theorem jsRound_zero : jsRound 0 = 0 := by
  unfold jsRound
  norm_num

end EmiMath

namespace EmiMath

/-- C1: the two concrete benchmark scenarios of the spec, matching the
repository's own unit tests: `calculateEMI(5000000, 8.5, 240) = 43391`
and `calculateEMI(1200000, 0, 120) = 10000`. -/
theorem calculateEMI_benchmarks :
    calculateEMI 5000000 (17 / 2) 240 = 43391 ∧
    calculateEMI 1200000 0 120 = 10000 := by
  constructor <;> with_unfolding_all rfl

/-- C2 counterexample: at principal 1, rate 0, tenure 3 the code returns
the raw quotient `1/3`, not the claimed nearest-unit rounding of it
(which would be `0`). -/
theorem calculateEMI_zeroRate_unrounded_cex :
    calculateEMI 1 0 3 ≠ (jsRound ((1 : ℚ) / 3) : ℚ) := by
  with_unfolding_all decide

/-- C2 (amended): for positive principal and tenure, the zero-rate branch
of `calculateEMI` returns `principal / tenureMonths` exactly, with no
rounding applied. -/
theorem calculateEMI_zeroRate (principal : ℚ) (tenureMonths : ℕ)
    (hp : 0 < principal) (hn : 0 < tenureMonths) :
    calculateEMI principal 0 tenureMonths = principal / tenureMonths := by
  unfold calculateEMI
  rw [if_neg (not_or.mpr ⟨not_le.mpr hp, Nat.pos_iff_ne_zero.mp hn⟩), if_pos rfl]

/-- C2 witness: the amended statement at principal 1, tenure 3. -/
theorem calculateEMI_zeroRate_witness :
    (0 : ℚ) < 1 ∧ 0 < 3 ∧ calculateEMI 1 0 3 = 1 / 3 :=
  ⟨by norm_num, by norm_num, calculateEMI_zeroRate 1 3 (by norm_num) (by norm_num)⟩

/-- C8: on degenerate inputs the math core returns zero/identity results:
`calculateEMI` returns 0 when principal ≤ 0 or the tenure is 0,
`generateAmortization` returns the empty schedule there, and
`calculateAffordability` returns 0 when emi ≤ 0 or the tenure is 0. -/
theorem degenerate_inputs_zero (principal emi annualRate prepay : ℚ)
    (tenureMonths : ℕ) :
    (principal ≤ 0 ∨ tenureMonths = 0 →
      calculateEMI principal annualRate tenureMonths = 0) ∧
    (principal ≤ 0 ∨ tenureMonths = 0 →
      generateAmortization principal annualRate tenureMonths prepay = []) ∧
    (emi ≤ 0 ∨ tenureMonths = 0 →
      calculateAffordability emi annualRate tenureMonths = 0) := by
  refine ⟨fun h => ?_, fun h => ?_, fun h => ?_⟩
  · unfold calculateEMI
    rw [if_pos h]
  · unfold generateAmortization
    rw [if_pos h]
  · unfold calculateAffordability
    rw [if_pos h]

/-- C8 witness: the three degenerate clauses at zero principal / zero emi. -/
theorem degenerate_inputs_zero_witness :
    calculateEMI 0 (17 / 2) 240 = 0 ∧
    generateAmortization 0 (17 / 2) 240 0 = [] ∧
    calculateAffordability 0 (17 / 2) 240 = 0 :=
  ⟨(degenerate_inputs_zero 0 0 (17 / 2) 0 240).1 (Or.inl le_rfl),
   (degenerate_inputs_zero 0 0 (17 / 2) 0 240).2.1 (Or.inl le_rfl),
   (degenerate_inputs_zero 0 0 (17 / 2) 0 240).2.2 (Or.inl le_rfl)⟩

end EmiMath

namespace EmiMath

/-- The rounded EMI is within half a currency unit of the exact EMI value. -/
theorem calculateEMI_exact_err (principal annualRate : ℚ) (tenureMonths : ℕ)
    (hp : 0 < principal) (hn : 0 < tenureMonths) :
    |calculateEMI principal annualRate tenureMonths -
      exactEMIValue principal annualRate tenureMonths| ≤ 1 / 2 := by
  unfold calculateEMI exactEMIValue
  rw [if_neg (not_or.mpr ⟨not_le.mpr hp, Nat.pos_iff_ne_zero.mp hn⟩)]
  by_cases hr : annualRate = 0
  · rw [if_pos hr, if_pos hr]
    simp
  · rw [if_neg hr, if_neg hr]
    exact jsRound_err _

/-- C4: `calculateTotalInterest` is exactly `Math.round(EMI·n − P)`, and it
agrees with the exact interest difference `exactEMI·n − P` within one
currency unit per month of tenure. -/
theorem calculateTotalInterest_spec (principal annualRate : ℚ) (tenureMonths : ℕ)
    (hp : 0 < principal) (hr0 : 0 ≤ annualRate) (hr1 : annualRate ≤ 50)
    (hn : 0 < tenureMonths) :
    calculateTotalInterest principal annualRate tenureMonths =
      (jsRound (calculateEMI principal annualRate tenureMonths * tenureMonths
        - principal) : ℚ) ∧
    |calculateTotalInterest principal annualRate tenureMonths -
      (exactEMIValue principal annualRate tenureMonths * tenureMonths - principal)|
      ≤ tenureMonths := by
  refine ⟨rfl, ?_⟩
  have hround := jsRound_err
    (calculateEMI principal annualRate tenureMonths * tenureMonths - principal)
  have hemi := calculateEMI_exact_err principal annualRate tenureMonths hp hn
  have hn1 : (1 : ℚ) ≤ tenureMonths := by exact_mod_cast hn
  have htri := abs_sub_le
    (calculateTotalInterest principal annualRate tenureMonths)
    (calculateEMI principal annualRate tenureMonths * tenureMonths - principal)
    (exactEMIValue principal annualRate tenureMonths * tenureMonths - principal)
  have hsecond :
      |(calculateEMI principal annualRate tenureMonths * tenureMonths - principal) -
        (exactEMIValue principal annualRate tenureMonths * tenureMonths - principal)|
      = |calculateEMI principal annualRate tenureMonths -
          exactEMIValue principal annualRate tenureMonths| * tenureMonths := by
    rw [show
      (calculateEMI principal annualRate tenureMonths * tenureMonths - principal) -
        (exactEMIValue principal annualRate tenureMonths * tenureMonths - principal)
      = (calculateEMI principal annualRate tenureMonths -
          exactEMIValue principal annualRate tenureMonths) * tenureMonths by ring]
    rw [abs_mul, abs_of_nonneg (by positivity : (0:ℚ) ≤ (tenureMonths : ℚ))]
  rw [hsecond] at htri
  have hmul : |calculateEMI principal annualRate tenureMonths -
      exactEMIValue principal annualRate tenureMonths| * tenureMonths
      ≤ (1 / 2) * tenureMonths :=
    mul_le_mul_of_nonneg_right hemi (by positivity)
  calc |calculateTotalInterest principal annualRate tenureMonths -
      (exactEMIValue principal annualRate tenureMonths * tenureMonths - principal)|
      ≤ |calculateTotalInterest principal annualRate tenureMonths -
          (calculateEMI principal annualRate tenureMonths * tenureMonths - principal)|
        + |calculateEMI principal annualRate tenureMonths -
            exactEMIValue principal annualRate tenureMonths| * tenureMonths := htri
    _ ≤ 1 / 2 + (1 / 2) * tenureMonths := by
        exact add_le_add (by exact_mod_cast hround) hmul
    _ ≤ tenureMonths := by linarith

/-- C4 witness: the total-interest relation at the benchmark inputs. -/
theorem calculateTotalInterest_spec_witness :
    (0 : ℚ) < 1200 ∧ (0 : ℚ) ≤ 12 ∧ (12 : ℚ) ≤ 50 ∧ 0 < 12 ∧
    (calculateTotalInterest 1200 12 12 =
      (jsRound (calculateEMI 1200 12 12 * 12 - 1200) : ℚ) ∧
    |calculateTotalInterest 1200 12 12 -
      (exactEMIValue 1200 12 12 * 12 - 1200)| ≤ 12) :=
  ⟨by norm_num, by norm_num, by norm_num, by norm_num,
   calculateTotalInterest_spec 1200 12 12 (by norm_num) (by norm_num)
     (by norm_num) (by norm_num)⟩

end EmiMath

namespace EmiMath

/-- Two-decimal rounding keeps a value of `[0.01, 50]` inside `[0.01, 50]`. -/
theorem round2_mem_Icc (y : ℚ) (h1 : 1 / 100 ≤ y) (h2 : y ≤ 50) :
    1 / 100 ≤ round2 y ∧ round2 y ≤ 50 := by
  unfold round2 jsRound
  constructor
  · have h : (1 : ℤ) ≤ ⌊y * 100 + 1 / 2⌋ := by
      apply Int.le_floor.mpr
      push_cast
      linarith
    have h' : (1 : ℚ) ≤ (⌊y * 100 + 1 / 2⌋ : ℚ) := by exact_mod_cast h
    linarith
  · have h : ⌊y * 100 + 1 / 2⌋ ≤ 5000 := by
      have hmono : ⌊y * 100 + 1 / 2⌋ ≤ ⌊(10001 : ℚ) / 2⌋ :=
        Int.floor_le_floor (by linarith)
      have heval : ⌊(10001 : ℚ) / 2⌋ = 5000 := by norm_num
      omega
    have h' : ((⌊y * 100 + 1 / 2⌋ : ℤ) : ℚ) ≤ 5000 := by exact_mod_cast h
    linarith

/-- Range invariant of the bisection loop: starting from any bracket
inside `[0.01, 50]`, the returned value lies in `[0.01, 50]` and is an
integer multiple of `1/100`. -/
theorem reverseLoop_mem (principal emi : ℚ) (tenureMonths : ℕ) :
    ∀ (fuel : ℕ) (low high : ℚ), 1 / 100 ≤ low → low ≤ high → high ≤ 50 →
      (1 / 100 ≤ reverseLoop principal emi tenureMonths fuel low high ∧
        reverseLoop principal emi tenureMonths fuel low high ≤ 50) ∧
      ∃ m : ℤ, reverseLoop principal emi tenureMonths fuel low high = m / 100 := by
  intro fuel
  induction fuel with
  | zero =>
    intro low high h1 h2 h3
    refine ⟨round2_mem_Icc _ (by linarith) (by linarith), ⟨jsRound (_ * 100), rfl⟩⟩
  | succ fuel ih =>
    intro low high h1 h2 h3
    simp only [reverseLoop]
    split_ifs with habs hlt
    · exact ⟨round2_mem_Icc _ (by linarith) (by linarith), ⟨jsRound (_ * 100), rfl⟩⟩
    · exact ih ((low + high) / 2) high (by linarith) (by linarith) h3
    · exact ih low ((low + high) / 2) h1 (by linarith) (by linarith)

/-- C6: for every input, `reverseEMIRate` (whose bisection loop is bounded
by 100 iterations of structural fuel) returns a value: that value lies in
the search interval `[0.01, 50]` and is rounded to two decimal places
(an integer multiple of `1/100`). -/
theorem reverseEMIRate_total_bounded (principal emi : ℚ) (tenureMonths : ℕ) :
    (1 / 100 ≤ reverseEMIRate principal emi tenureMonths ∧
      reverseEMIRate principal emi tenureMonths ≤ 50) ∧
    ∃ m : ℤ, reverseEMIRate principal emi tenureMonths = m / 100 :=
  reverseLoop_mem principal emi tenureMonths 100 (1 / 100) 50 le_rfl
    (by norm_num) le_rfl

end EmiMath

namespace EmiMath

/-- The present-value annuity factor `Σ_{k=1}^{n} (1+r)^{-k}`, used to
analyse the EMI formula. -/
def geomInvSum (x : ℚ) (n : ℕ) : ℚ :=
  ∑ k ∈ Finset.range n, (x⁻¹) ^ (k + 1)

theorem geomInvSum_eq (x : ℚ) (hx : 1 < x) (n : ℕ) :
    geomInvSum x n = (x ^ n - 1) / ((x - 1) * x ^ n) := by
  have hx0 : x ≠ 0 := ne_of_gt (lt_trans one_pos hx)
  have hx1 : x - 1 ≠ 0 := sub_ne_zero.mpr (ne_of_gt hx)
  induction n with
  | zero => simp [geomInvSum]
  | succ n ih =>
    rw [geomInvSum, Finset.sum_range_succ, ← geomInvSum, ih]
    have hxn : x ^ n ≠ 0 := pow_ne_zero _ hx0
    field_simp
    ring

theorem geomInvSum_pos (x : ℚ) (hx : 1 < x) (n : ℕ) (hn : 0 < n) :
    0 < geomInvSum x n :=
  Finset.sum_pos
    (fun k _ => pow_pos (inv_pos.mpr (lt_trans one_pos hx)) _)
    (Finset.nonempty_range_iff.mpr (Nat.pos_iff_ne_zero.mp hn))

theorem geomInvSum_anti (x₁ x₂ : ℚ) (h1 : 1 < x₁) (hle : x₁ ≤ x₂) (n : ℕ) :
    geomInvSum x₂ n ≤ geomInvSum x₁ n := by
  apply Finset.sum_le_sum
  intro k _
  have hx1 : 0 < x₁ := lt_trans one_pos h1
  have hinv : x₂⁻¹ ≤ x₁⁻¹ := by
    apply inv_le_inv_of_le hx1 hle
  exact pow_le_pow_left (inv_nonneg.mpr (by linarith)) hinv _

/-- The exact EMI formula rewritten as principal over the annuity factor. -/
theorem exactEMI_eq_div (principal annualRate : ℚ) (n : ℕ)
    (hr : 0 < annualRate) (hn : 0 < n) :
    exactEMI principal annualRate n =
      principal / geomInvSum (1 + annualRate / 1200) n := by
  have hrpos : 0 < annualRate / 1200 := by positivity
  have hx : 1 < 1 + annualRate / 1200 := by linarith
  rw [geomInvSum_eq _ hx]
  unfold exactEMI
  have hx0 : (1 : ℚ) + annualRate / 1200 ≠ 0 := by positivity
  have h1 : (1 + annualRate / 1200) ^ n ≠ 0 := pow_ne_zero _ hx0
  have hgt : 1 < (1 + annualRate / 1200) ^ n :=
    one_lt_pow hx (Nat.pos_iff_ne_zero.mp hn)
  have h2 : (1 + annualRate / 1200) ^ n - 1 ≠ 0 :=
    sub_ne_zero.mpr (ne_of_gt hgt)
  field_simp
  ring

/-- The exact EMI value is monotone in the annual rate (positive rates). -/
theorem exactEMI_mono_rate (principal r₁ r₂ : ℚ) (n : ℕ)
    (hp : 0 < principal) (h1 : 0 < r₁) (h12 : r₁ ≤ r₂) (hn : 0 < n) :
    exactEMI principal r₁ n ≤ exactEMI principal r₂ n := by
  have h2 : 0 < r₂ := lt_of_lt_of_le h1 h12
  rw [exactEMI_eq_div principal r₁ n h1 hn, exactEMI_eq_div principal r₂ n h2 hn]
  have hd1 : 0 < r₁ / 1200 := by positivity
  have hd2 : 0 < r₂ / 1200 := by positivity
  have hx1 : 1 < 1 + r₁ / 1200 := by linarith
  have hx2 : 1 < 1 + r₂ / 1200 := by linarith
  have hxle : 1 + r₁ / 1200 ≤ 1 + r₂ / 1200 := by linarith
  have hS2 : 0 < geomInvSum (1 + r₂ / 1200) n := geomInvSum_pos _ hx2 n hn
  have hSle : geomInvSum (1 + r₂ / 1200) n ≤ geomInvSum (1 + r₁ / 1200) n :=
    geomInvSum_anti _ _ hx1 hxle n
  exact div_le_div_of_nonneg_left hp.le hS2 hSle

end EmiMath

namespace EmiMath

/-- C5 counterexample: increasing the rate does not always increase the
returned EMI, because the result is rounded to a whole unit: at principal
1200, tenure 1, the rates 1 and 1.2 (both in `[0.01, 50]`) yield the same
EMI 1201. -/
theorem calculateEMI_rate_strictMono_cex :
    (1 : ℚ) < 6 / 5 ∧
    calculateEMI 1200 1 1 = 1201 ∧ calculateEMI 1200 (6 / 5) 1 = 1201 := by
  refine ⟨by norm_num, ?_, ?_⟩ <;> with_unfolding_all rfl

/-- C5 (amended): for fixed positive principal and tenure, `calculateEMI`
is monotone non-decreasing in the annual rate over `[0.01, 50]` (the
rounding to whole currency units can merge nearby rates, so the increase
need not be strict). -/
theorem calculateEMI_mono_rate (principal r₁ r₂ : ℚ) (tenureMonths : ℕ)
    (hp : 0 < principal) (hn : 0 < tenureMonths)
    (h1 : 1 / 100 ≤ r₁) (h12 : r₁ ≤ r₂) (h2 : r₂ ≤ 50) :
    calculateEMI principal r₁ tenureMonths ≤ calculateEMI principal r₂ tenureMonths := by
  have hr1 : 0 < r₁ := lt_of_lt_of_le (by norm_num) h1
  have hr2 : 0 < r₂ := lt_of_lt_of_le hr1 h12
  have hcond := not_or.mpr ⟨not_le.mpr hp, Nat.pos_iff_ne_zero.mp hn⟩
  unfold calculateEMI
  rw [if_neg hcond, if_neg (ne_of_gt hr1), if_neg hcond, if_neg (ne_of_gt hr2)]
  exact_mod_cast jsRound_mono
    (exactEMI_mono_rate principal r₁ r₂ tenureMonths hp hr1 h12 hn)

/-- C5 witness: monotonicity instance at principal 100000, tenure 12,
rates 8 and 9. -/
theorem calculateEMI_mono_rate_witness :
    (0 : ℚ) < 100000 ∧ 0 < 12 ∧ (1 : ℚ) / 100 ≤ 8 ∧ (8 : ℚ) ≤ 9 ∧ (9 : ℚ) ≤ 50 ∧
    calculateEMI 100000 8 12 ≤ calculateEMI 100000 9 12 :=
  ⟨by norm_num, by norm_num, by norm_num, by norm_num, by norm_num,
   calculateEMI_mono_rate 100000 8 9 12 (by norm_num) (by norm_num)
     (by norm_num) (by norm_num) (by norm_num)⟩

end EmiMath

namespace EmiMath

/-- The post-step balance is never negative (it is clamped at zero). -/
theorem amortizeStep_balance_nonneg (emi r prepay balance : ℚ) :
    0 ≤ (amortizeStep emi r prepay balance).2.2 := by
  unfold amortizeStep
  exact le_max_left 0 _

/-- If the month's rounded interest does not exceed the fixed EMI, the
post-step balance does not exceed the pre-step balance. -/
theorem amortizeStep_balance_le (emi r prepay balance : ℚ)
    (hb : 0 < balance) (hint : (jsRound (balance * r) : ℚ) ≤ emi) :
    (amortizeStep emi r prepay balance).2.2 ≤ balance := by
  unfold amortizeStep
  dsimp only
  split_ifs with hcap hpre hpre
  · exact absurd hpre.2 (by simp)
  · simp only [sub_self, sub_zero, max_le_iff]
    exact ⟨hb.le, hb.le⟩
  · have hmin : 0 ≤ min prepay (balance - (emi - (jsRound (balance * r) : ℚ))) :=
      le_min hpre.1.le hpre.2.le
    refine max_le hb.le (by linarith)
  · refine max_le hb.le (by linarith)

/-- If the balance is no longer positive, the loop produces no entries. -/
theorem amortizeLoop_of_nonpos (emi r prepay : ℚ) (fuel month : ℕ)
    (balance cum : ℚ) (h : balance ≤ 0) :
    amortizeLoop emi r prepay fuel month balance cum = [] := by
  cases fuel with
  | zero => rfl
  | succ fuel => simp [amortizeLoop, if_pos h]

/-- Loop invariant for the amortization schedule: starting from a positive
balance at most `P`, and with the fixed EMI at least the rounded interest
on `P`, every generated entry's balance is at most the starting balance
and the successive balances are non-increasing. -/
theorem amortizeLoop_balances (emi r prepay P : ℚ) (hr : 0 ≤ r)
    (hemi : (jsRound (P * r) : ℚ) ≤ emi) :
    ∀ (fuel month : ℕ) (balance cum : ℚ), 0 < balance → balance ≤ P →
      (∀ e ∈ amortizeLoop emi r prepay fuel month balance cum,
        e.balance ≤ balance) ∧
      List.Chain' (fun a b => b.balance ≤ a.balance)
        (amortizeLoop emi r prepay fuel month balance cum) := by
  intro fuel
  induction fuel with
  | zero =>
    intro month balance cum hb hbP
    exact ⟨by simp [amortizeLoop], by simp [amortizeLoop]⟩
  | succ fuel ih =>
    intro month balance cum hb hbP
    have hint : (jsRound (balance * r) : ℚ) ≤ emi := by
      refine le_trans ?_ hemi
      exact_mod_cast jsRound_mono (mul_le_mul_of_nonneg_right hbP hr)
    have hle := amortizeStep_balance_le emi r prepay balance hb hint
    have hnonneg := amortizeStep_balance_nonneg emi r prepay balance
    rw [show amortizeLoop emi r prepay (fuel + 1) month balance cum =
      { month := month
        emi := (amortizeStep emi r prepay balance).2.1 +
          (amortizeStep emi r prepay balance).1
        principal := (amortizeStep emi r prepay balance).2.1
        interest := (amortizeStep emi r prepay balance).1
        balance := (amortizeStep emi r prepay balance).2.2
        cumulativeInterest := cum + (amortizeStep emi r prepay balance).1 } ::
        amortizeLoop emi r prepay fuel (month + 1)
          (amortizeStep emi r prepay balance).2.2
          (cum + (amortizeStep emi r prepay balance).1) by
      simp [amortizeLoop, if_neg (not_le.mpr hb)]]
    rcases lt_or_le 0 (amortizeStep emi r prepay balance).2.2 with hpos | hnp
    · have htail := ih (month + 1) (amortizeStep emi r prepay balance).2.2
        (cum + (amortizeStep emi r prepay balance).1) hpos (le_trans hle hbP)
      constructor
      · intro e he
        rcases List.mem_cons.mp he with rfl | he'
        · exact hle
        · exact le_trans (htail.1 e he') hle
      · rw [List.chain'_cons']
        refine ⟨fun b hb' => ?_, htail.2⟩
        exact htail.1 b (List.mem_of_mem_head? hb')
    · have hz : (amortizeStep emi r prepay balance).2.2 = 0 :=
        le_antisymm hnp hnonneg
      rw [amortizeLoop_of_nonpos emi r prepay fuel (month + 1) _ _ hnp]
      constructor
      · intro e he
        rcases List.mem_cons.mp he with rfl | he'
        · exact hle
        · exact absurd he' (List.not_mem_nil e)
      · simp

end EmiMath

namespace EmiMath

/-- The exact EMI value is at least the first month's exact interest. -/
theorem exactEMI_ge_interest (principal annualRate : ℚ) (n : ℕ)
    (hp : 0 < principal) (hr : 0 < annualRate) (hn : 0 < n) :
    principal * (annualRate / 1200) ≤ exactEMI principal annualRate n := by
  unfold exactEMI
  have hr' : 0 < annualRate / 1200 := by positivity
  have hf : 1 < (1 + annualRate / 1200) ^ n :=
    one_lt_pow (by linarith) (Nat.pos_iff_ne_zero.mp hn)
  have h1 : 1 ≤ (1 + annualRate / 1200) ^ n / ((1 + annualRate / 1200) ^ n - 1) :=
    (one_le_div (by linarith)).mpr (by linarith)
  calc principal * (annualRate / 1200)
      = principal * (annualRate / 1200) * 1 := by ring
    _ ≤ principal * (annualRate / 1200) *
        ((1 + annualRate / 1200) ^ n / ((1 + annualRate / 1200) ^ n - 1)) :=
        mul_le_mul_of_nonneg_left h1 (by positivity)
    _ = principal * (annualRate / 1200) * (1 + annualRate / 1200) ^ n /
        ((1 + annualRate / 1200) ^ n - 1) := by ring

/-- C3 counterexample: at principal 5,000,000, rate 50, tenure 120 (all
within the claimed ranges, no prepayment) the final entry of the schedule
has balance 1656, exceeding the claimed 500-unit residual bound. -/
theorem generateAmortization_residual_cex :
    ((generateAmortization 5000000 50 120 0).getLast?.map
      AmortizationEntry.balance) = some 1656 ∧ ¬ ((1656 : ℚ) ≤ 500) := by
  constructor
  · with_unfolding_all decide
  · norm_num

/-- C3 (amended): for positive principal, rate in `[0, 50]`, positive
tenure and non-negative prepayment, the balances of successive entries of
the schedule are non-increasing (the 500-unit bound on the final balance
does not hold in general). -/
theorem generateAmortization_balances_antitone (principal annualRate prepay : ℚ)
    (tenureMonths : ℕ) (hp : 0 < principal) (hr0 : 0 ≤ annualRate)
    (hr1 : annualRate ≤ 50) (hpre : 0 ≤ prepay) (hn : 0 < tenureMonths) :
    List.Chain' (fun a b => b.balance ≤ a.balance)
      (generateAmortization principal annualRate tenureMonths prepay) := by
  have hcond := not_or.mpr ⟨not_le.mpr hp, Nat.pos_iff_ne_zero.mp hn⟩
  unfold generateAmortization
  rw [if_neg hcond]
  have hr'0 : 0 ≤ (if annualRate > 0 then annualRate / 1200 else 0) := by
    split_ifs with h
    · positivity
    · exact le_rfl
  have hemi : (jsRound (principal * (if annualRate > 0 then annualRate / 1200 else 0)) : ℚ)
      ≤ calculateEMI principal annualRate tenureMonths := by
    unfold calculateEMI
    rw [if_neg hcond]
    by_cases hrate : annualRate = 0
    · rw [if_pos hrate, if_neg (by rw [hrate]; norm_num : ¬ annualRate > 0)]
      rw [mul_zero, jsRound_zero]
      positivity
    · have hratepos : 0 < annualRate := lt_of_le_of_ne hr0 (Ne.symm hrate)
      rw [if_neg hrate, if_pos hratepos]
      exact_mod_cast jsRound_mono
        (exactEMI_ge_interest principal annualRate tenureMonths hp hratepos hn)
  exact (amortizeLoop_balances (calculateEMI principal annualRate tenureMonths)
    _ prepay principal hr'0 hemi tenureMonths 1 principal 0 hp le_rfl).2

/-- C3 witness: the amended monotone-balances statement at principal 1000,
rate 12, tenure 2, no prepayment. -/
theorem generateAmortization_balances_antitone_witness :
    (0 : ℚ) < 1000 ∧ (0 : ℚ) ≤ 12 ∧ (12 : ℚ) ≤ 50 ∧ (0 : ℚ) ≤ 0 ∧ 0 < 2 ∧
    List.Chain' (fun a b => b.balance ≤ a.balance)
      (generateAmortization 1000 12 2 0) :=
  ⟨by norm_num, by norm_num, by norm_num, le_rfl, by norm_num,
   generateAmortization_balances_antitone 1000 12 0 2 (by norm_num) (by norm_num)
     (by norm_num) le_rfl (by norm_num)⟩

end EmiMath

namespace EmiMath

/-- Every entry produced by the amortization loop satisfies
`emi = principal + interest`. -/
theorem amortizeLoop_emi_split (emi r prepay : ℚ) :
    ∀ (fuel month : ℕ) (balance cum : ℚ),
      ∀ e ∈ amortizeLoop emi r prepay fuel month balance cum,
        e.emi = e.principal + e.interest := by
  intro fuel
  induction fuel with
  | zero =>
    intro month balance cum e he
    simp [amortizeLoop] at he
  | succ fuel ih =>
    intro month balance cum e he
    by_cases hb : balance ≤ 0
    · rw [amortizeLoop_of_nonpos emi r prepay _ month balance cum hb] at he
      exact absurd he (List.not_mem_nil e)
    · simp only [amortizeLoop, if_neg hb] at he
      rcases List.mem_cons.mp he with rfl | he'
      · rfl
      · exact ih (month + 1) _ _ e he'

/-- In a month where the scheduled principal portion is not capped and a
positive monthly prepayment is configured, the produced entry's `emi`
field equals the fixed EMI plus the prepayment amount actually applied. -/
theorem amortizeLoop_prepay_headEmi (emi r prepayAmt : ℚ) (fuel month : ℕ)
    (balance cum : ℚ) (hb : 0 < balance)
    (hcap : emi - (jsRound (balance * r) : ℚ) < balance)
    (hpre : 0 < prepayAmt) :
    ((amortizeLoop emi r prepayAmt (fuel + 1) month balance cum).head?.map
        AmortizationEntry.emi)
      = some (emi + min prepayAmt
          (balance - (emi - (jsRound (balance * r) : ℚ)))) := by
  simp only [amortizeLoop, if_neg (not_le.mpr hb), List.head?_cons]
  unfold amortizeStep
  dsimp only
  rw [if_neg (not_lt.mpr hcap.le), if_pos ⟨hpre, by linarith⟩]
  simp only [Option.map_some', Option.some.injEq]
  ring

/-- C10: every schedule entry satisfies `emi = principal + interest`; and
in a month with an applied (uncapped) positive prepayment, the entry's
`emi` field exceeds the fixed EMI by exactly the prepayment actually
applied, `min prepayAmt (balance - (emi - interest))`. -/
theorem amortization_emi_decomposition :
    (∀ (principal annualRate prepay : ℚ) (tenureMonths : ℕ),
      ∀ e ∈ generateAmortization principal annualRate tenureMonths prepay,
        e.emi = e.principal + e.interest) ∧
    (∀ (emi r prepayAmt cum balance : ℚ) (fuel month : ℕ),
      0 < balance →
      emi - (jsRound (balance * r) : ℚ) < balance →
      0 < prepayAmt →
      ((amortizeLoop emi r prepayAmt (fuel + 1) month balance cum).head?.map
          AmortizationEntry.emi)
        = some (emi + min prepayAmt
            (balance - (emi - (jsRound (balance * r) : ℚ))))) := by
  constructor
  · intro principal annualRate prepay tenureMonths e he
    unfold generateAmortization at he
    by_cases h : principal ≤ 0 ∨ tenureMonths = 0
    · rw [if_pos h] at he
      exact absurd he (List.not_mem_nil e)
    · rw [if_neg h] at he
      exact amortizeLoop_emi_split _ _ prepay tenureMonths 1 principal 0 e he
  · intro emi r prepayAmt cum balance fuel month hb hcap hpre
    exact amortizeLoop_prepay_headEmi emi r prepayAmt fuel month balance cum
      hb hcap hpre

/-- C10 witness: the decomposition at a concrete schedule entry, and the
prepayment case at a concrete loop state. -/
theorem amortization_emi_decomposition_witness :
    ((⟨1, 50, 50, 0, 50, 0⟩ : AmortizationEntry) ∈ generateAmortization 100 0 2 0 ∧
      (⟨1, 50, 50, 0, 50, 0⟩ : AmortizationEntry).emi =
        (⟨1, 50, 50, 0, 50, 0⟩ : AmortizationEntry).principal +
          (⟨1, 50, 50, 0, 50, 0⟩ : AmortizationEntry).interest) ∧
    ((0 : ℚ) < 1000 ∧
      (100 : ℚ) - (jsRound ((1000 : ℚ) * (1 / 100)) : ℚ) < 1000 ∧
      (0 : ℚ) < 5 ∧
      ((amortizeLoop 100 (1 / 100) 5 (0 + 1) 1 1000 0).head?.map
          AmortizationEntry.emi)
        = some (100 + min 5 (1000 - (100 - (jsRound ((1000 : ℚ) * (1 / 100)) : ℚ))))) := by
  have hmem : (⟨1, 50, 50, 0, 50, 0⟩ : AmortizationEntry) ∈
      generateAmortization 100 0 2 0 := by
    with_unfolding_all decide
  have hb : (0 : ℚ) < 1000 := by norm_num
  have hcap : (100 : ℚ) - (jsRound ((1000 : ℚ) * (1 / 100)) : ℚ) < 1000 := by
    with_unfolding_all decide
  have hpre : (0 : ℚ) < 5 := by norm_num
  exact ⟨⟨hmem, amortization_emi_decomposition.1 100 0 0 2 _ hmem⟩,
    hb, hcap, hpre,
    amortization_emi_decomposition.2 100 (1 / 100) 5 0 1000 0 1 hb hcap hpre⟩

end EmiMath

namespace EmiMath

/-- C7 counterexample: at principal 1, tenure 1, rate 1 (within `[1, 20]`)
the round trip `reverseEMIRate(P, calculateEMI(P, r, n), n)` returns 25.01
(the first bisection midpoint is already within 1 unit of the 1-unit EMI),
which is not within 0.1 of the original rate 1. -/
theorem reverseEMIRate_roundtrip_cex :
    (1 : ℚ) ≤ 1 ∧ (1 : ℚ) ≤ 20 ∧
    reverseEMIRate 1 (calculateEMI 1 1 1) 1 = 2501 / 100 ∧
    ¬ (|reverseEMIRate 1 (calculateEMI 1 1 1) 1 - 1| ≤ 1 / 10) := by
  have hval : reverseEMIRate 1 (calculateEMI 1 1 1) 1 = 2501 / 100 := by
    with_unfolding_all rfl
  refine ⟨le_rfl, by norm_num, hval, ?_⟩
  rw [hval, show (2501 : ℚ) / 100 - 1 = 2401 / 100 by norm_num,
    abs_of_nonneg (by norm_num : (0 : ℚ) ≤ 2401 / 100)]
  norm_num

/-- C7 (amended): the round-trip accuracy does hold at realistic loan
magnitudes where the EMI varies by far more than the 1-unit stopping
tolerance across the rate range: at the repository's benchmark
(principal 5,000,000, tenure 240, rate 8.5) the recovered rate is within
0.1 of the original (it is exactly 8.5). -/
theorem reverseEMIRate_roundtrip_benchmark :
    reverseEMIRate 5000000 (calculateEMI 5000000 (17 / 2) 240) 240 = 17 / 2 ∧
    |reverseEMIRate 5000000 (calculateEMI 5000000 (17 / 2) 240) 240 - 17 / 2|
      ≤ 1 / 10 := by
  have hval : reverseEMIRate 5000000 (calculateEMI 5000000 (17 / 2) 240) 240
      = 17 / 2 := by
    with_unfolding_all rfl
  refine ⟨hval, ?_⟩
  rw [hval]
  norm_num

end EmiMath
